import Mathlib

set_option maxHeartbeats 1000000
set_option maxRecDepth 4000

/-!
Shallow embedding of `src/algo/multiBenders.py`, a multi-cut Benders
decomposition driver for a two-stage stochastic cloud-capacity problem.

The LP/MILP engine is external; its answers (master solutions, subproblem
objective values and dual prices) are modelled as an oracle (`Engine`).
Machine floats are modelled by exact rationals; the special values of
Python floats (infinities, undefined results) that arise when an infinite
capacity is multiplied by a dual price are modelled by the type `XQ`.
-/

/-- Extended rational numbers mirroring the special values of Python floats:
finite values, the two infinities, and an undefined value produced by
operations such as `0 * inf` or `inf - inf`. -/
inductive XQ where
  | fin (q : ℚ)
  | pinf
  | ninf
  | nan
deriving DecidableEq, Repr

/-- Addition on `XQ`, following IEEE-style float addition. -/
def XQ.add : XQ → XQ → XQ
  | XQ.nan, _ => XQ.nan
  | _, XQ.nan => XQ.nan
  | XQ.fin a, XQ.fin b => XQ.fin (a + b)
  | XQ.fin _, XQ.pinf => XQ.pinf
  | XQ.fin _, XQ.ninf => XQ.ninf
  | XQ.pinf, XQ.fin _ => XQ.pinf
  | XQ.ninf, XQ.fin _ => XQ.ninf
  | XQ.pinf, XQ.pinf => XQ.pinf
  | XQ.ninf, XQ.ninf => XQ.ninf
  | XQ.pinf, XQ.ninf => XQ.nan
  | XQ.ninf, XQ.pinf => XQ.nan

/-- Multiplication on `XQ`, following IEEE-style float multiplication
(in particular `0 * inf` is undefined). -/
def XQ.mul : XQ → XQ → XQ
  | XQ.nan, _ => XQ.nan
  | _, XQ.nan => XQ.nan
  | XQ.fin a, XQ.fin b => XQ.fin (a * b)
  | XQ.fin a, XQ.pinf => if 0 < a then XQ.pinf else if a < 0 then XQ.ninf else XQ.nan
  | XQ.fin a, XQ.ninf => if 0 < a then XQ.ninf else if a < 0 then XQ.pinf else XQ.nan
  | XQ.pinf, XQ.fin a => if 0 < a then XQ.pinf else if a < 0 then XQ.ninf else XQ.nan
  | XQ.ninf, XQ.fin a => if 0 < a then XQ.ninf else if a < 0 then XQ.pinf else XQ.nan
  | XQ.pinf, XQ.pinf => XQ.pinf
  | XQ.pinf, XQ.ninf => XQ.ninf
  | XQ.ninf, XQ.pinf => XQ.ninf
  | XQ.ninf, XQ.ninf => XQ.pinf

/-- Negation on `XQ`. -/
def XQ.neg : XQ → XQ
  | XQ.fin a => XQ.fin (-a)
  | XQ.pinf => XQ.ninf
  | XQ.ninf => XQ.pinf
  | XQ.nan => XQ.nan

/-- Subtraction on `XQ`. -/
def XQ.sub (a b : XQ) : XQ := XQ.add a (XQ.neg b)

/-- Absolute value on `XQ` (the absolute value of the undefined value is
undefined, as for float NaN). -/
def XQ.absX : XQ → XQ
  | XQ.fin a => XQ.fin |a|
  | XQ.nan => XQ.nan
  | _ => XQ.pinf

/-- Strict comparison on `XQ` as a Boolean; any comparison involving the
undefined value is false, as for float NaN. -/
def XQ.ltB : XQ → XQ → Bool
  | XQ.nan, _ => false
  | _, XQ.nan => false
  | XQ.fin a, XQ.fin b => decide (a < b)
  | XQ.fin _, XQ.pinf => true
  | XQ.fin _, XQ.ninf => false
  | XQ.pinf, _ => false
  | XQ.ninf, XQ.ninf => false
  | XQ.ninf, _ => true

/-- Non-strict comparison on `XQ` as a Boolean; any comparison involving the
undefined value is false. -/
def XQ.leB : XQ → XQ → Bool
  | XQ.nan, _ => false
  | _, XQ.nan => false
  | XQ.fin a, XQ.fin b => decide (a ≤ b)
  | XQ.fin _, XQ.pinf => true
  | XQ.fin _, XQ.ninf => false
  | XQ.pinf, XQ.pinf => true
  | XQ.pinf, _ => false
  | XQ.ninf, _ => true

/-- Sum of a rational-valued function over a list. -/
def qSum (l : List String) (f : String → ℚ) : ℚ := (l.map f).sum

/-- Sum over two nested index lists. -/
def qSum2 (l₁ l₂ : List String) (f : String → String → ℚ) : ℚ :=
  qSum l₁ (fun a => qSum l₂ (f a))

/-- Sum over three nested index lists. -/
def qSum3 (l₁ l₂ l₃ : List String) (f : String → String → String → ℚ) : ℚ :=
  qSum l₁ (fun a => qSum2 l₂ l₃ (f a))

/-- Left-to-right sum of an `XQ`-valued function over a list, starting from
zero, as Python's builtin sum does. -/
def xqSum (l : List String) (f : String → XQ) : XQ :=
  (l.map f).foldl XQ.add (XQ.fin 0)

/-- Flat list of values of a function over two nested index lists, in
generator order. -/
def terms2 {α : Type} (l₁ l₂ : List String) (f : String → String → α) : List α :=
  (l₁.map (fun a => l₂.map (f a))).flatten

/-- Flat list of values of a function over three nested index lists, in
generator order. -/
def terms3 {α : Type} (l₁ l₂ l₃ : List String) (f : String → String → String → α) : List α :=
  (l₁.map (fun a => terms2 l₂ l₃ (f a))).flatten

/-- The problem instance `d`: index sets, costs, capacities (`none` is an
infinite capacity, i.e. float `inf`), demands and probabilities, as read by
the source. -/
structure ProbData where
  users : List String
  VMs : List String
  providers : List String
  routers : List String
  scenarios : List String
  arcs : List (String × String)
  VM_rcost : String → ℚ
  R_rcost : String → ℚ
  prob : String → ℚ
  P_CCapacity : String → Option ℚ
  P_SCapacity : String → Option ℚ
  P_MCapacity : String → Option ℚ
  R_BCapacity : String → Option ℚ
  VM_demands : String → String → String → ℚ
  VM_ucost : String → String → ℚ
  VM_ocost : String → String → ℚ
  R_ucost : String → String → ℚ
  R_ocost : String → String → ℚ
  VM_CDemand : String → ℚ
  VM_SDemand : String → ℚ
  VM_MDemand : String → ℚ
  VM_BDemand : String → ℚ

/-- A master solution as reported by the engine after `MP.optimize()`:
first-stage values `xr[u,v,p]`, `yr[u,r]`, the surrogate values `eta[s]`,
and the reported objective value `MP.objVal`. -/
structure MasterSol where
  xr : String → String → String → ℚ
  yr : String → String → ℚ
  eta : String → ℚ
  objVal : ℚ

/-- A subproblem answer as reported by the engine inside
`modifyAndSolveSP`: the objective value and one dual price per constraint
family, keyed as in the source. -/
structure SPResult where
  qvalue : ℚ
  vu : String → String → String → ℚ
  ru : String → String → ℚ
  cpi : String → ℚ
  spi : String → ℚ
  mpi : String → ℚ
  bpi : String → ℚ
  dpi : String → String → ℚ

/-- The external LP/MILP engine, modelled as an oracle: the master solution
reported at each iteration, and the subproblem answer reported for each
(iteration, scenario) pair. -/
structure Engine where
  master : ℕ → MasterSol
  sp : ℕ → String → SPResult

/-- One guarded capacity term of the dual reconstruction, from
`c_pisol[p] * d.P_CCapacity[p] if d.P_CCapacity[p] != float('inf') else 0`. -/
def capTerm (cap : Option ℚ) (price : ℚ) : ℚ :=
  match cap with
  | some c => price * c
  | none => 0

/-- A capacity as an extended rational (an absent finite value is float
infinity). -/
def capToXQ (cap : Option ℚ) : XQ :=
  match cap with
  | some c => XQ.fin c
  | none => XQ.pinf

/-- First-stage part of the dual reconstruction:
`sum(xrsol[u,v,p] * vu_pisol[u,v,p] ...) + sum(yrsol[u,r] * ru_pisol[u,r] ...)`. -/
def dualFirstPart (d : ProbData) (ms : MasterSol) (r : SPResult) : ℚ :=
  qSum3 d.providers d.VMs d.users (fun p v u => ms.xr u v p * r.vu u v p)
    + qSum2 d.routers d.users (fun rr u => ms.yr u rr * r.ru u rr)

/-- CPU-capacity part of the dual reconstruction (guarded against infinite
capacity). -/
def capCPart (d : ProbData) (r : SPResult) : ℚ :=
  qSum d.providers (fun p => capTerm (d.P_CCapacity p) (r.cpi p))

/-- Storage-capacity part of the dual reconstruction (guarded against
infinite capacity). -/
def capSPart (d : ProbData) (r : SPResult) : ℚ :=
  qSum d.providers (fun p => capTerm (d.P_SCapacity p) (r.spi p))

/-- Memory-capacity part of the dual reconstruction (guarded against
infinite capacity). -/
def capMPart (d : ProbData) (r : SPResult) : ℚ :=
  qSum d.providers (fun p => capTerm (d.P_MCapacity p) (r.mpi p))

/-- Router-bandwidth part of the dual reconstruction:
`sum(b_pisol[r] * d.R_BCapacity[r] for r in d.routers)` — note the source
has no guard against an infinite bandwidth capacity here, so the term is
computed in extended arithmetic. -/
def bandPart (d : ProbData) (r : SPResult) : XQ :=
  xqSum d.routers (fun rr => XQ.mul (XQ.fin (r.bpi rr)) (capToXQ (d.R_BCapacity rr)))

/-- Demand part of the dual reconstruction:
`sum(d_pisol[u,v] * d.VM_demands[s,u,v] ...)`. -/
def demPart (d : ProbData) (s : String) (r : SPResult) : ℚ :=
  qSum2 d.VMs d.users (fun v u => r.dpi u v * d.VM_demands s u v)

/-- The dual objective reconstructed in the driver (source lines 59–65),
in extended arithmetic because the router-bandwidth term is unguarded. -/
def dualSPobj (d : ProbData) (s : String) (ms : MasterSol) (r : SPResult) : XQ :=
  XQ.add
    (XQ.add
      (XQ.fin (dualFirstPart d ms r + capCPart d r + capSPart d r + capMPart d r))
      (bandPart d r))
    (XQ.fin (demPart d s r))

/-- The hard-coded strong-duality tolerance `1e-4` of the assert. -/
def tol4 : ℚ := 1 / 10000

/-- The strong-duality check `abs(dualSPobj - qvalue) < 1e-4` (source line
66); false whenever the reconstruction is infinite or undefined, exactly as
the float comparison would be. -/
def dualCheckB (d : ProbData) (s : String) (ms : MasterSol) (r : SPResult) : Bool :=
  XQ.ltB (XQ.absX (XQ.sub (dualSPobj d s ms r) (XQ.fin r.qvalue))) (XQ.fin tol4)

/-- The constant term of a Benders cut: capacity and demand dual
contributions evaluated at their fixed right-hand sides (source lines
75–79). -/
def cutConst (d : ProbData) (s : String) (r : SPResult) : XQ :=
  XQ.add
    (XQ.add (XQ.fin (capCPart d r + capSPart d r + capMPart d r)) (bandPart d r))
    (XQ.fin (demPart d s r))

/-- A Benders optimality cut `eta[s] >= sum(coeff * xr) + sum(coeff * yr) + const`,
with coefficient term lists kept in generator order. -/
structure BCut where
  scen : String
  vuTerms : List ((String × String × String) × ℚ)
  ruTerms : List ((String × String) × ℚ)
  const : XQ
deriving DecidableEq

/-- Build the cut generated for scenario `s` from the reported duals
(source lines 73–79 and 83). -/
def mkCut (d : ProbData) (s : String) (r : SPResult) : BCut :=
  { scen := s
    vuTerms := terms3 d.providers d.VMs d.users (fun p v u => ((u, v, p), r.vu u v p))
    ruTerms := terms2 d.routers d.users (fun rr u => ((u, rr), r.ru u rr))
    const := cutConst d s r }

/-- Value of the variable part of a cut at a master solution. -/
def BCut.lhsVal (c : BCut) (ms : MasterSol) : ℚ :=
  (c.vuTerms.map (fun t => ms.xr t.1.1 t.1.2.1 t.1.2.2 * t.2)).sum
    + (c.ruTerms.map (fun t => ms.yr t.1.1 t.1.2 * t.2)).sum

/-- A master solution satisfies a cut when `eta[s]` is at least the cut's
right-hand side (in extended arithmetic). -/
def BCut.holds (c : BCut) (ms : MasterSol) : Prop :=
  XQ.leB (XQ.add (XQ.fin (c.lhsVal ms)) c.const) (XQ.fin (ms.eta c.scen)) = true

/-- First part of the iteration upper bound: the first-stage reservation
cost at the current master solution (source lines 51–52); this is also the
first-stage part of the master objective built in `buildMP`. -/
def firstStageCost (d : ProbData) (ms : MasterSol) : ℚ :=
  qSum3 d.providers d.VMs d.users (fun p v u => d.VM_rcost v * ms.xr u v p)
    + qSum2 d.routers d.users (fun rr u => d.R_rcost rr * ms.yr u rr)

/-- Probability-weighted sum of the surrogate values, the second part of
the master objective. -/
def etaExpect (d : ProbData) (ms : MasterSol) : ℚ :=
  qSum d.scenarios (fun s => d.prob s * ms.eta s)

/-- Value of the master objective of `buildMP` at a master solution. -/
def masterObj (d : ProbData) (ms : MasterSol) : ℚ :=
  firstStageCost d ms + etaExpect d ms

/-- Probability-weighted sum of the reported scenario objectives, the
second part of the iteration upper bound. -/
def probWeighted (d : ProbData) (spo : String → SPResult) : ℚ :=
  qSum d.scenarios (fun s => d.prob s * (spo s).qvalue)

/-- Sum of the scenario probabilities. -/
def probSum (d : ProbData) : ℚ := qSum d.scenarios d.prob

/-- The cut-violation test `nsol[s] < qvalue - cutViolationTolerance`
(source line 72). -/
def violatedB (cutTol : ℚ) (ms : MasterSol) (spo : String → SPResult) (s : String) : Bool :=
  decide (ms.eta s < (spo s).qvalue - cutTol)

/-- The cuts generated in one iteration: one per violated scenario, in
scenario order. -/
def newCutList (d : ProbData) (cutTol : ℚ) (ms : MasterSol) (spo : String → SPResult)
    (scens : List String) : List BCut :=
  (scens.filter (violatedB cutTol ms spo)).map (fun s => mkCut d s (spo s))

/-- The per-scenario phase of one iteration (source lines 54–83): for each
scenario in order, check strong duality (aborting with that scenario on
failure, as the assert does), accumulate the probability-weighted scenario
objective into the upper bound, and append a cut when the scenario is
violated. -/
def scenarioFold (d : ProbData) (cutTol : ℚ) (ms : MasterSol) (spo : String → SPResult) :
    List String → ℚ × List BCut → Except String (ℚ × List BCut)
  | [], acc => Except.ok acc
  | s :: rest, acc =>
    if dualCheckB d s ms (spo s) then
      scenarioFold d cutTol ms spo rest
        (acc.1 + d.prob s * (spo s).qvalue,
         if ms.eta s < (spo s).qvalue - cutTol then acc.2 ++ [mkCut d s (spo s)] else acc.2)
    else Except.error s

/-- The per-scenario phase with the strong-duality gate removed; when every
check passes the guarded fold computes exactly this. -/
def scenarioFoldNC (d : ProbData) (cutTol : ℚ) (ms : MasterSol) (spo : String → SPResult) :
    List String → ℚ × List BCut → ℚ × List BCut
  | [], acc => acc
  | s :: rest, acc =>
    scenarioFoldNC d cutTol ms spo rest
      (acc.1 + d.prob s * (spo s).qvalue,
       if ms.eta s < (spo s).qvalue - cutTol then acc.2 ++ [mkCut d s (spo s)] else acc.2)

/-- Mutable state of the Benders loop: the best upper bound so far (`none`
is the initial `GRB.INFINITY`), the cuts added to the master so far, and
the iteration and cut counters. -/
structure LoopState where
  bestUB : Option ℚ
  cuts : List BCut
  noIters : ℕ
  noCuts : ℕ
deriving DecidableEq

/-- `bestUB = min(UB, bestUB)` (source line 86), where the initial best
upper bound is infinite. -/
def updateBest : Option ℚ → ℚ → ℚ
  | none, ub => ub
  | some b, ub => min ub b

/-- Record of one completed iteration: iteration number, the cuts present
in the master when it was solved, the reported master solution and
objective, the iteration upper bound, the updated best upper bound, and
the cuts generated. -/
structure IterRec where
  iter : ℕ
  cutsBefore : List BCut
  sol : MasterSol
  mpObj : ℚ
  ub : ℚ
  bestUB : ℚ
  newCuts : List BCut

/-- The relative optimality gap `(bestUB - MPobj) / (1 + abs(bestUB))`
(source line 92). -/
def relGap (bestUB mpObj : ℚ) : ℚ := (bestUB - mpObj) / (1 + |bestUB|)

/-- How a run ends: convergence detected by the gap check (`byGap = true`),
exit of the `while cutFound` loop with no new cut (`byGap = false`), an
assertion failure at some (iteration, scenario), or fuel exhaustion of the
model (the source loop has no iteration limit). -/
inductive Outcome where
  | finished (byGap : Bool) (st : LoopState) (mpObj : ℚ)
  | aborted (iter : ℕ) (scen : String)
  | fuelOut (st : LoopState)
deriving DecidableEq

/-- One full iteration of the Benders loop body (source lines 25–88):
solve the master (read the oracle), run the scenario phase, update the
best upper bound and the state. Returns the iteration record, the new
state, and the `cutFound` flag. -/
def bendersIter (d : ProbData) (eng : Engine) (cutTol : ℚ) (st : LoopState) :
    Except String (IterRec × LoopState × Bool) :=
  match scenarioFold d cutTol (eng.master (st.noIters + 1)) (eng.sp (st.noIters + 1))
      d.scenarios (firstStageCost d (eng.master (st.noIters + 1)), []) with
  | Except.error s => Except.error s
  | Except.ok (ub, nc) =>
    Except.ok
      ({ iter := st.noIters + 1
         cutsBefore := st.cuts
         sol := eng.master (st.noIters + 1)
         mpObj := (eng.master (st.noIters + 1)).objVal
         ub := ub
         bestUB := updateBest st.bestUB ub
         newCuts := nc },
       { bestUB := some (updateBest st.bestUB ub)
         cuts := st.cuts ++ nc
         noIters := st.noIters + 1
         noCuts := st.noCuts + nc.length },
       ! nc.isEmpty)

/-- The Benders loop (source lines 24–94) with explicit fuel: after each
iteration, exit when the relative gap is at most epsilon; otherwise
continue while a cut was found; exit also when no cut was found. Returns
the list of iteration records and the outcome. -/
def bendersLoop (d : ProbData) (eng : Engine) (cutTol eps : ℚ) :
    ℕ → LoopState → List IterRec × Outcome
  | 0, st => ([], Outcome.fuelOut st)
  | fuel + 1, st =>
    match bendersIter d eng cutTol st with
    | Except.error s => ([], Outcome.aborted (st.noIters + 1) s)
    | Except.ok (r, st', cutFound) =>
      if relGap r.bestUB r.mpObj ≤ eps then ([r], Outcome.finished true st' r.mpObj)
      else if cutFound then
        ((r :: (bendersLoop d eng cutTol eps fuel st').1),
         (bendersLoop d eng cutTol eps fuel st').2)
      else ([r], Outcome.finished false st' r.mpObj)

/-- A full run of `multiBenders` from the initial state (`bestUB`
infinite, no cuts, counters at zero). -/
def multiBendersRun (d : ProbData) (eng : Engine) (cutTol eps : ℚ) (fuel : ℕ) :
    List IterRec × Outcome :=
  bendersLoop d eng cutTol eps fuel { bestUB := none, cuts := [], noIters := 0, noCuts := 0 }

/-- Identity of a master variable: reservation `xr[u,v,p]`, router
reservation `yr[u,r]`, or surrogate `eta[s]`. -/
inductive MPVarId where
  | xr (u v p : String)
  | yr (u r : String)
  | eta (s : String)
deriving DecidableEq

/-- Variable domain kind offered by the engine. -/
inductive VKind where
  | integer
  | continuous
deriving DecidableEq

/-- A variable of the master model with its kind and lower bound (the
engine's default lower bound is 0, as in `Model.addVars`). -/
structure MPVar where
  vid : MPVarId
  kind : VKind
  lb : ℚ
deriving DecidableEq

/-- Objective sense of a model. -/
inductive ObjSense where
  | minimize
  | maximize
deriving DecidableEq

/-- The master model: variables, linear objective (coefficient per
variable occurrence), sense, and its constraints, which in this program
are exactly the Benders cuts. -/
structure MPModel where
  vars : List MPVar
  objTerms : List (MPVarId × ℚ)
  sense : ObjSense
  constrs : List BCut
deriving DecidableEq

/-- The master problem builder `buildMP` (source lines 116–145):
integer `xr` variables, continuous `yr` and `eta` variables — all with the
engine's default lower bound 0 — the reservation-plus-expected-surrogate
objective, minimization sense, and no constraints. -/
def buildMP (d : ProbData) : MPModel :=
  { vars :=
      terms3 d.users d.VMs d.providers (fun u v p => MPVar.mk (MPVarId.xr u v p) VKind.integer 0)
        ++ terms2 d.users d.routers (fun u rr => MPVar.mk (MPVarId.yr u rr) VKind.continuous 0)
        ++ d.scenarios.map (fun s => MPVar.mk (MPVarId.eta s) VKind.continuous 0)
    objTerms :=
      terms3 d.providers d.VMs d.users (fun p v u => (MPVarId.xr u v p, d.VM_rcost v))
        ++ terms2 d.routers d.users (fun rr u => (MPVarId.yr u rr, d.R_rcost rr))
        ++ d.scenarios.map (fun s => (MPVarId.eta s, d.prob s))
    sense := ObjSense.minimize
    constrs := [] }

/-- Value of a model's linear objective at an assignment of the master
variables. -/
def evalObj (m : MPModel) (g : MPVarId → ℚ) : ℚ :=
  (m.objTerms.map (fun t => t.2 * g t.1)).sum

/-- Identity of a subproblem variable. -/
inductive SPVarId where
  | xu (u v p : String)
  | yu (u r : String)
  | xo (u v p : String)
  | yo (u r : String)
  | fl (u eo ei : String)
deriving DecidableEq

/-- A subproblem variable with its lower bound (all continuous,
engine-default lower bound 0). -/
structure SPVar where
  vid : SPVarId
  lb : ℚ
deriving DecidableEq

/-- Identity of a subproblem constraint: the constraint family plus its
index tuple, the stringly-typed key `name[indices]` of the source made
structural. -/
inductive SPCid where
  | vmUtil (u v p : String)
  | rUtil (u r : String)
  | cpuCap (p : String)
  | storCap (p : String)
  | memCap (p : String)
  | bandCap (r : String)
  | vmDem (u v : String)
  | rBal (u r : String)
  | rUsage (u r : String)
  | rDem (u p : String)
  | uBal (u : String)
deriving DecidableEq

/-- A subproblem constraint: its identity and its current right-hand side
(the mutable part; capacities may be infinite). -/
structure SPCon where
  cid : SPCid
  rhs : XQ
deriving DecidableEq

/-- The subproblem model: variables with bounds, constraints with
right-hand sides, and the current linear objective. -/
structure SPModel where
  vars : List SPVar
  constrs : List SPCon
  objTerms : List (SPVarId × ℚ)
deriving DecidableEq

/-- The subproblem builder `buildSP` (source lines 148–207): all
second-stage variables (continuous, lower bound 0), the utilization-bound
and demand constraints with placeholder right-hand side 0, the capacity
constraints with the instance capacities as right-hand sides, the
flow-balance constraints, and the placeholder zero objective. Lists are in
source construction order. -/
def buildSP (d : ProbData) : SPModel :=
  { vars :=
      terms3 d.users d.VMs d.providers (fun u v p => SPVar.mk (SPVarId.xu u v p) 0)
        ++ terms2 d.users d.routers (fun u rr => SPVar.mk (SPVarId.yu u rr) 0)
        ++ terms3 d.users d.VMs d.providers (fun u v p => SPVar.mk (SPVarId.xo u v p) 0)
        ++ terms2 d.users d.routers (fun u rr => SPVar.mk (SPVarId.yo u rr) 0)
        ++ (d.users.map (fun u => d.arcs.map (fun a => SPVar.mk (SPVarId.fl u a.1 a.2) 0))).flatten
    constrs :=
      terms3 d.providers d.VMs d.users (fun p v u => SPCon.mk (SPCid.vmUtil u v p) (XQ.fin 0))
        ++ terms2 d.routers d.users (fun rr u => SPCon.mk (SPCid.rUtil u rr) (XQ.fin 0))
        ++ d.providers.map (fun p => SPCon.mk (SPCid.cpuCap p) (capToXQ (d.P_CCapacity p)))
        ++ d.providers.map (fun p => SPCon.mk (SPCid.storCap p) (capToXQ (d.P_SCapacity p)))
        ++ d.providers.map (fun p => SPCon.mk (SPCid.memCap p) (capToXQ (d.P_MCapacity p)))
        ++ d.routers.map (fun rr => SPCon.mk (SPCid.bandCap rr) (capToXQ (d.R_BCapacity rr)))
        ++ terms2 d.VMs d.users (fun v u => SPCon.mk (SPCid.vmDem u v) (XQ.fin 0))
        ++ terms2 d.users d.routers (fun u rr => SPCon.mk (SPCid.rBal u rr) (XQ.fin 0))
        ++ terms2 d.users d.routers (fun u rr => SPCon.mk (SPCid.rUsage u rr) (XQ.fin 0))
        ++ terms2 d.providers d.users (fun p u => SPCon.mk (SPCid.rDem u p) (XQ.fin 0))
        ++ d.users.map (fun u => SPCon.mk (SPCid.uBal u) (XQ.fin 0))
    objTerms := [] }

/-- The right-hand-side mutation performed on one constraint by
`modifyAndSolveSP` (source lines 216–227): utilization bounds receive the
fixed reservation values, demand constraints receive the scenario demand,
every other constraint is untouched. -/
def modifyRhs (d : ProbData) (s : String) (xrsol : String → String → String → ℚ)
    (yrsol : String → String → ℚ) (c : SPCon) : SPCon :=
  match c.cid with
  | SPCid.vmUtil u v p => SPCon.mk c.cid (XQ.fin (xrsol u v p))
  | SPCid.rUtil u rr => SPCon.mk c.cid (XQ.fin (yrsol u rr))
  | SPCid.vmDem u v => SPCon.mk c.cid (XQ.fin (d.VM_demands s u v))
  | _ => c

/-- The scenario objective installed by `modifyAndSolveSP` (source lines
230–234): utilization and on-demand unit costs of scenario `s`. -/
def spObjTerms (d : ProbData) (s : String) : List (SPVarId × ℚ) :=
  terms3 d.providers d.VMs d.users (fun p v u => (SPVarId.xu u v p, d.VM_ucost s v))
    ++ terms2 d.routers d.users (fun rr u => (SPVarId.yu u rr, d.R_ucost s rr))
    ++ terms3 d.providers d.VMs d.users (fun p v u => (SPVarId.xo u v p, d.VM_ocost s v))
    ++ terms2 d.routers d.users (fun rr u => (SPVarId.yo u rr, d.R_ocost s rr))

/-- The full mutation of the shared subproblem model performed by
`modifyAndSolveSP` before solving: overwrite the targeted right-hand
sides and replace the objective; variables and all other constraints are
untouched. -/
def modifySP (m : SPModel) (d : ProbData) (s : String)
    (xrsol : String → String → String → ℚ) (yrsol : String → String → ℚ) : SPModel :=
  { vars := m.vars
    constrs := m.constrs.map (modifyRhs d s xrsol yrsol)
    objTerms := spObjTerms d s }

/-- Whether a constraint family is one of the three whose right-hand side
`modifyAndSolveSP` overwrites. -/
def isTargetCid : SPCid → Bool
  | SPCid.vmUtil _ _ _ => true
  | SPCid.rUtil _ _ => true
  | SPCid.vmDem _ _ => true
  | _ => false

/-- The test `e_out[0] == 'P'` applied by the user flow-balance constraint
of `buildSP` (source line 203) to an arc tail identifier. -/
def headIsP (x : String) : Bool := decide (x.data.head? = some 'P')

/-- The right-hand side of the `U balance` constraint as the code builds
it: total flow on arcs whose tail identifier starts with `P` (source
lines 202–204), for one user, at a flow assignment on arcs. -/
def uBalOutCode (arcs : List (String × String)) (flv : String × String → ℚ) : ℚ :=
  ((arcs.filter (fun a => headIsP a.1)).map flv).sum

/-- Modelled from the spec: the intended right-hand side of the `U
balance` constraint, "inflow to each user sink equals total flow
originating from provider nodes" — total flow on arcs whose tail is a
provider. -/
def uBalOutIntended (providers : List String) (arcs : List (String × String))
    (flv : String × String → ℚ) : ℚ :=
  ((arcs.filter (fun a => decide (a.1 ∈ providers))).map flv).sum

/-- Feasibility of a master solution for the master model with a given cut
list: the variable bounds of `buildMP` (non-negative integer `xr`,
non-negative `yr`, non-negative `eta` — the engine-default lower bound 0)
plus every cut. -/
def MasterFeasible (d : ProbData) (cuts : List BCut) (ms : MasterSol) : Prop :=
  (∀ u ∈ d.users, ∀ v ∈ d.VMs, ∀ p ∈ d.providers, 0 ≤ ms.xr u v p ∧ ∃ k : ℤ, ms.xr u v p = k) ∧
  (∀ u ∈ d.users, ∀ rr ∈ d.routers, 0 ≤ ms.yr u rr) ∧
  (∀ s ∈ d.scenarios, 0 ≤ ms.eta s) ∧
  (∀ c ∈ cuts, c.holds ms)

/-- The engine contract for one master solve: the reported solution is
feasible for the current cut list, the reported objective value is the
objective at the solution, and no feasible solution is better. -/
def IsOptimal (d : ProbData) (cuts : List BCut) (ms : MasterSol) : Prop :=
  MasterFeasible d cuts ms ∧ ms.objVal = masterObj d ms ∧
    ∀ ms2, MasterFeasible d cuts ms2 → masterObj d ms ≤ masterObj d ms2

/-- Relation between two consecutive iteration records of one run: the
iteration counter advances, the master's cut list is extended by exactly
the cuts the earlier iteration generated, and the best upper bound is
updated by the running minimum. -/
def IterStep (a b : IterRec) : Prop :=
  b.iter = a.iter + 1 ∧ b.cutsBefore = a.cutsBefore ++ a.newCuts ∧ b.bestUB = min b.ub a.bestUB

/-- A minimal problem instance used to instantiate theorems with
hypotheses: no users, machines, providers or routers, one scenario of
probability one. -/
def wData : ProbData :=
  { users := [], VMs := [], providers := [], routers := [], scenarios := ["s1"], arcs := []
    VM_rcost := fun _ => 0, R_rcost := fun _ => 0, prob := fun _ => 1
    P_CCapacity := fun _ => some 0, P_SCapacity := fun _ => some 0, P_MCapacity := fun _ => some 0
    R_BCapacity := fun _ => some 0
    VM_demands := fun _ _ _ => 0, VM_ucost := fun _ _ => 0, VM_ocost := fun _ _ => 0
    R_ucost := fun _ _ => 0, R_ocost := fun _ _ => 0
    VM_CDemand := fun _ => 0, VM_SDemand := fun _ => 0, VM_MDemand := fun _ => 0
    VM_BDemand := fun _ => 0 }

/-- The all-zero master solution with reported objective zero. -/
def wSol : MasterSol := { xr := fun _ _ _ => 0, yr := fun _ _ => 0, eta := fun _ => 0, objVal := 0 }

/-- The all-zero subproblem answer. -/
def wSP : SPResult :=
  { qvalue := 0, vu := fun _ _ _ => 0, ru := fun _ _ => 0, cpi := fun _ => 0, spi := fun _ => 0
    mpi := fun _ => 0, bpi := fun _ => 0, dpi := fun _ _ => 0 }

/-- The engine that always reports the all-zero answers. -/
def wEng : Engine := { master := fun _ => wSol, sp := fun _ _ => wSP }

/-- An instance with one user and one VM type whose unit demand makes the
first subproblem solve report objective 1 with demand dual 1: the first
iteration generates one violated cut. -/
def cData : ProbData := { wData with users := ["u1"], VMs := ["v1"], VM_demands := fun _ _ _ => 1 }

/-- Subproblem answer with objective 1 certified by a demand dual of 1. -/
def cSP : SPResult := { wSP with qvalue := 1, dpi := fun _ _ => 1 }

/-- Engine reporting the all-zero master solution and `cSP` for every
scenario. -/
def cEng : Engine := { master := fun _ => wSol, sp := fun _ _ => cSP }

/-- Engine whose subproblem answer claims objective 1 with all-zero duals,
so the strong-duality check fails. -/
def bEng : Engine := { master := fun _ => wSol, sp := fun _ _ => { wSP with qvalue := 1 } }

/-- Instance with a single router of infinite bandwidth capacity, for the
unguarded bandwidth term. -/
def xData : ProbData := { wData with routers := ["R1"], R_BCapacity := fun _ => none }

/-- Subproblem answer reporting a negative bandwidth dual price. -/
def xSP : SPResult := { wSP with bpi := fun _ => -1 }

/-- Instance with one provider all of whose capacities are infinite. -/
def iData : ProbData :=
  { wData with
      providers := ["P1"]
      P_CCapacity := fun _ => none
      P_SCapacity := fun _ => none
      P_MCapacity := fun _ => none }

/-- Subproblem answer with positive capacity duals on the infinite
capacities of provider `P1`. -/
def iSPa : SPResult :=
  { wSP with
      cpi := fun q => if q = "P1" then 5 else 0
      spi := fun q => if q = "P1" then 7 else 0
      mpi := fun q => if q = "P1" then 11 else 0 }

/-- Subproblem answer with negative capacity duals on the infinite
capacities of provider `P1`. -/
def iSPb : SPResult :=
  { wSP with
      cpi := fun q => if q = "P1" then -5 else 0
      spi := fun q => if q = "P1" then -7 else 0
      mpi := fun q => if q = "P1" then -11 else 0 }

/-- Instance whose node identifiers follow the `P`-prefix convention of
the source, with one provider-tail arc and one router-tail arc. -/
def pData : ProbData :=
  { wData with
      providers := ["P1"]
      routers := ["R1"]
      arcs := [("P1", "u1"), ("R1", "u1")] }

/-- The iteration upper bound reported at iteration `i`: first-stage
reservation cost plus the probability-weighted scenario objectives. -/
def iterUB (d : ProbData) (eng : Engine) (i : ℕ) : ℚ :=
  firstStageCost d (eng.master i) + probWeighted d (eng.sp i)

/-- The cuts generated at iteration `i`. -/
def iterCuts (d : ProbData) (eng : Engine) (cutTol : ℚ) (i : ℕ) : List BCut :=
  newCutList d cutTol (eng.master i) (eng.sp i) d.scenarios

/-- The iteration record produced by a successful iteration from state
`st`. -/
def iterRecOf (d : ProbData) (eng : Engine) (cutTol : ℚ) (st : LoopState) : IterRec :=
  { iter := st.noIters + 1
    cutsBefore := st.cuts
    sol := eng.master (st.noIters + 1)
    mpObj := (eng.master (st.noIters + 1)).objVal
    ub := iterUB d eng (st.noIters + 1)
    bestUB := updateBest st.bestUB (iterUB d eng (st.noIters + 1))
    newCuts := iterCuts d eng cutTol (st.noIters + 1) }

/-- The loop state after a successful iteration from state `st`. -/
def stepStateOf (d : ProbData) (eng : Engine) (cutTol : ℚ) (st : LoopState) : LoopState :=
  { bestUB := some (updateBest st.bestUB (iterUB d eng (st.noIters + 1)))
    cuts := st.cuts ++ iterCuts d eng cutTol (st.noIters + 1)
    noIters := st.noIters + 1
    noCuts := st.noCuts + (iterCuts d eng cutTol (st.noIters + 1)).length }


theorem qSum_nil (f : String → ℚ) : qSum [] f = 0 := rfl

theorem qSum_cons (a : String) (l : List String) (f : String → ℚ) :
    qSum (a :: l) f = f a + qSum l f := by
  simp [qSum]

theorem qSum_add_distrib (l : List String) (f g : String → ℚ) :
    qSum l (fun s => f s + g s) = qSum l f + qSum l g := by
  induction l with
  | nil => simp [qSum]
  | cons a t ih => simp only [qSum_cons, ih]; ring

theorem qSum_le_qSum (l : List String) (f g : String → ℚ) (h : ∀ s ∈ l, f s ≤ g s) :
    qSum l f ≤ qSum l g := by
  induction l with
  | nil => simp [qSum]
  | cons a t ih =>
    simp only [qSum_cons]
    have h1 : f a ≤ g a := h a (by simp)
    have h2 : qSum t f ≤ qSum t g := ih (fun s hs => h s (by simp [hs]))
    linarith

theorem qSum_mul_left (l : List String) (c : ℚ) (f : String → ℚ) :
    qSum l (fun s => c * f s) = c * qSum l f := by
  induction l with
  | nil => simp [qSum]
  | cons a t ih => simp only [qSum_cons, ih]; ring

theorem terms2_cons {α : Type} (a : String) (t l₂ : List String) (f : String → String → α) :
    terms2 (a :: t) l₂ f = l₂.map (f a) ++ terms2 t l₂ f := by
  simp [terms2]

theorem terms3_cons {α : Type} (a : String) (t l₂ l₃ : List String)
    (f : String → String → String → α) :
    terms3 (a :: t) l₂ l₃ f = terms2 l₂ l₃ (f a) ++ terms3 t l₂ l₃ f := by
  simp [terms3, terms2]

theorem sum_map_terms2 {α : Type} (l₁ l₂ : List String) (f : String → String → α) (h : α → ℚ) :
    ((terms2 l₁ l₂ f).map h).sum = qSum2 l₁ l₂ (fun a b => h (f a b)) := by
  induction l₁ with
  | nil => simp [terms2, qSum2, qSum]
  | cons a t ih =>
    rw [terms2_cons, List.map_append, List.sum_append, ih]
    simp [qSum2, qSum, List.map_map, Function.comp_def]

theorem sum_map_terms3 {α : Type} (l₁ l₂ l₃ : List String) (f : String → String → String → α)
    (h : α → ℚ) :
    ((terms3 l₁ l₂ l₃ f).map h).sum = qSum3 l₁ l₂ l₃ (fun a b c => h (f a b c)) := by
  induction l₁ with
  | nil => simp [terms3, qSum3, qSum]
  | cons a t ih =>
    rw [terms3_cons, List.map_append, List.sum_append, ih, sum_map_terms2]
    simp [qSum3, qSum]

theorem mem_terms2 {α : Type} (l₁ l₂ : List String) (f : String → String → α) (x : α) :
    x ∈ terms2 l₁ l₂ f ↔ ∃ a ∈ l₁, ∃ b ∈ l₂, f a b = x := by
  simp [terms2, List.mem_flatten]

theorem mem_terms3 {α : Type} (l₁ l₂ l₃ : List String) (f : String → String → String → α) (x : α) :
    x ∈ terms3 l₁ l₂ l₃ f ↔ ∃ a ∈ l₁, ∃ b ∈ l₂, ∃ c ∈ l₃, f a b c = x := by
  simp [terms3, terms2, List.mem_flatten]

theorem updateBest_le (ob : Option ℚ) (ub : ℚ) : updateBest ob ub ≤ ub := by
  cases ob with
  | none => simp [updateBest]
  | some b => simp [updateBest, min_le_left]

theorem relGap_le_of_diff_le {b m cutTol eps : ℚ} (h : b - m ≤ cutTol) (htol : cutTol ≤ eps)
    (heps : 0 ≤ eps) : relGap b m ≤ eps := by
  have hd : (0 : ℚ) < 1 + |b| := by positivity
  rw [relGap, div_le_iff₀ hd]
  nlinarith [abs_nonneg b]

theorem scenarioFoldNC_spec (d : ProbData) (cutTol : ℚ) (ms : MasterSol)
    (spo : String → SPResult) :
    ∀ (scens : List String) (acc : ℚ × List BCut),
      scenarioFoldNC d cutTol ms spo scens acc =
        (acc.1 + qSum scens (fun s => d.prob s * (spo s).qvalue),
         acc.2 ++ newCutList d cutTol ms spo scens) := by
  intro scens
  induction scens with
  | nil => intro acc; simp [scenarioFoldNC, qSum, newCutList]
  | cons s rest ih =>
    intro acc
    simp only [scenarioFoldNC]
    rw [ih]
    by_cases h : ms.eta s < (spo s).qvalue - cutTol
    · simp [h, newCutList, List.filter_cons, violatedB, qSum_cons, add_assoc, decide_eq_true_eq]
    · simp [h, newCutList, List.filter_cons, violatedB, qSum_cons, add_assoc, decide_eq_true_eq]

theorem scenarioFold_pass (d : ProbData) (cutTol : ℚ) (ms : MasterSol) (spo : String → SPResult) :
    ∀ (scens : List String) (acc : ℚ × List BCut),
      (∀ s ∈ scens, dualCheckB d s ms (spo s) = true) →
      scenarioFold d cutTol ms spo scens acc =
        Except.ok (scenarioFoldNC d cutTol ms spo scens acc) := by
  intro scens
  induction scens with
  | nil => intro acc _; rfl
  | cons s rest ih =>
    intro acc h
    have hs : dualCheckB d s ms (spo s) = true := h s (by simp)
    simp only [scenarioFold, scenarioFoldNC, hs, if_true]
    exact ih _ (fun x hx => h x (by simp [hx]))

theorem scenarioFold_ok_pass (d : ProbData) (cutTol : ℚ) (ms : MasterSol)
    (spo : String → SPResult) :
    ∀ (scens : List String) (acc : ℚ × List BCut) (res : ℚ × List BCut),
      scenarioFold d cutTol ms spo scens acc = Except.ok res →
      ∀ s ∈ scens, dualCheckB d s ms (spo s) = true := by
  intro scens
  induction scens with
  | nil => intro acc res _; simp
  | cons s rest ih =>
    intro acc res h
    simp only [scenarioFold] at h
    by_cases hs : dualCheckB d s ms (spo s) = true
    · rw [if_pos hs] at h
      intro x hx
      rcases List.mem_cons.mp hx with rfl | hx2
      · exact hs
      · exact ih _ _ h x hx2
    · rw [if_neg hs] at h
      simp at h

theorem scenarioFold_error_iff (d : ProbData) (cutTol : ℚ) (ms : MasterSol)
    (spo : String → SPResult) :
    ∀ (scens : List String) (acc : ℚ × List BCut) (e : String),
      scenarioFold d cutTol ms spo scens acc = Except.error e ↔
        ∃ l₁ l₂, scens = l₁ ++ e :: l₂ ∧ (∀ s ∈ l₁, dualCheckB d s ms (spo s) = true) ∧
          dualCheckB d e ms (spo e) = false := by
  intro scens
  induction scens with
  | nil =>
    intro acc e
    constructor
    · intro h; simp [scenarioFold] at h
    · rintro ⟨l₁, l₂, h, -, -⟩; exact absurd h (by simp)
  | cons s rest ih =>
    intro acc e
    constructor
    · intro h
      simp only [scenarioFold] at h
      by_cases hs : dualCheckB d s ms (spo s) = true
      · rw [if_pos hs] at h
        obtain ⟨l₁, l₂, hdec, hall, hfail⟩ := (ih _ e).mp h
        refine ⟨s :: l₁, l₂, by simp [hdec], ?_, hfail⟩
        intro x hx
        rcases List.mem_cons.mp hx with rfl | hx2
        · exact hs
        · exact hall x hx2
      · rw [if_neg hs] at h
        simp only [Except.error.injEq] at h
        subst h
        exact ⟨[], rest, rfl, by simp, by simpa using hs⟩
    · rintro ⟨l₁, l₂, hdec, hall, hfail⟩
      cases l₁ with
      | nil =>
        simp only [List.nil_append] at hdec
        injection hdec with h1 h2
        subst h1
        subst h2
        simp only [scenarioFold]
        rw [if_neg (by simp [hfail])]
      | cons a l₁t =>
        simp only [List.cons_append] at hdec
        injection hdec with h1 h2
        subst h1
        subst h2
        have ha : dualCheckB d s ms (spo s) = true := hall s (by simp)
        simp only [scenarioFold, ha, if_true]
        exact (ih _ e).mpr ⟨l₁t, l₂, rfl, fun x hx => hall x (by simp [hx]), hfail⟩

theorem bendersIter_eval (d : ProbData) (eng : Engine) (cutTol : ℚ) (st : LoopState)
    (hpass : ∀ s ∈ d.scenarios,
      dualCheckB d s (eng.master (st.noIters + 1)) (eng.sp (st.noIters + 1) s) = true) :
    bendersIter d eng cutTol st =
      Except.ok (iterRecOf d eng cutTol st, stepStateOf d eng cutTol st,
        ! (iterCuts d eng cutTol (st.noIters + 1)).isEmpty) := by
  unfold bendersIter
  rw [scenarioFold_pass d cutTol _ _ _ _ hpass, scenarioFoldNC_spec]
  simp [iterRecOf, stepStateOf, iterUB, iterCuts, probWeighted]

theorem bendersIter_ok_inv (d : ProbData) (eng : Engine) (cutTol : ℚ) (st : LoopState)
    (r : IterRec) (st' : LoopState) (cf : Bool)
    (h : bendersIter d eng cutTol st = Except.ok (r, st', cf)) :
    (∀ s ∈ d.scenarios,
      dualCheckB d s (eng.master (st.noIters + 1)) (eng.sp (st.noIters + 1) s) = true) ∧
    r = iterRecOf d eng cutTol st ∧ st' = stepStateOf d eng cutTol st ∧
    cf = ! (iterCuts d eng cutTol (st.noIters + 1)).isEmpty := by
  have hpass : ∀ s ∈ d.scenarios,
      dualCheckB d s (eng.master (st.noIters + 1)) (eng.sp (st.noIters + 1) s) = true := by
    unfold bendersIter at h
    cases hf : scenarioFold d cutTol (eng.master (st.noIters + 1)) (eng.sp (st.noIters + 1))
        d.scenarios (firstStageCost d (eng.master (st.noIters + 1)), []) with
    | error s => rw [hf] at h; simp at h
    | ok res => exact scenarioFold_ok_pass d cutTol _ _ _ _ res hf
  have he := bendersIter_eval d eng cutTol st hpass
  rw [he] at h
  simp only [Except.ok.injEq, Prod.mk.injEq] at h
  exact ⟨hpass, h.1.symm, h.2.1.symm, h.2.2.symm⟩

theorem bendersIter_error_inv (d : ProbData) (eng : Engine) (cutTol : ℚ) (st : LoopState)
    (e : String) (h : bendersIter d eng cutTol st = Except.error e) :
    scenarioFold d cutTol (eng.master (st.noIters + 1)) (eng.sp (st.noIters + 1)) d.scenarios
      (firstStageCost d (eng.master (st.noIters + 1)), []) = Except.error e := by
  unfold bendersIter at h
  cases hf : scenarioFold d cutTol (eng.master (st.noIters + 1)) (eng.sp (st.noIters + 1))
      d.scenarios (firstStageCost d (eng.master (st.noIters + 1)), []) with
  | error s =>
    rw [hf] at h
    simp only [Except.error.injEq] at h
    subst h
    rfl
  | ok res =>
    rw [hf] at h
    rcases res with ⟨ub, nc⟩
    simp at h

theorem bendersLoop_succ_cases (d : ProbData) (eng : Engine) (cutTol eps : ℚ) (f : ℕ)
    (st : LoopState) :
    (∃ e, bendersIter d eng cutTol st = Except.error e ∧
        bendersLoop d eng cutTol eps (f + 1) st = ([], Outcome.aborted (st.noIters + 1) e)) ∨
    (∃ r st' cf, bendersIter d eng cutTol st = Except.ok (r, st', cf) ∧
      ((relGap r.bestUB r.mpObj ≤ eps ∧
          bendersLoop d eng cutTol eps (f + 1) st = ([r], Outcome.finished true st' r.mpObj)) ∨
       (¬ relGap r.bestUB r.mpObj ≤ eps ∧ cf = true ∧
          bendersLoop d eng cutTol eps (f + 1) st =
            (r :: (bendersLoop d eng cutTol eps f st').1, (bendersLoop d eng cutTol eps f st').2)) ∨
       (¬ relGap r.bestUB r.mpObj ≤ eps ∧ cf = false ∧
          bendersLoop d eng cutTol eps (f + 1) st = ([r], Outcome.finished false st' r.mpObj)))) := by
  cases hit : bendersIter d eng cutTol st with
  | error e => exact Or.inl ⟨e, rfl, by simp [bendersLoop, hit]⟩
  | ok out =>
    rcases out with ⟨r, st', cf⟩
    refine Or.inr ⟨r, st', cf, rfl, ?_⟩
    by_cases hg : relGap r.bestUB r.mpObj ≤ eps
    · exact Or.inl ⟨hg, by simp [bendersLoop, hit, hg]⟩
    · cases cf with
      | true => exact Or.inr (Or.inl ⟨hg, rfl, by simp [bendersLoop, hit, hg]⟩)
      | false => exact Or.inr (Or.inr ⟨hg, rfl, by simp [bendersLoop, hit, hg]⟩)

theorem loop_head_spec (d : ProbData) (eng : Engine) (cutTol eps : ℚ) :
    ∀ (fuel : ℕ) (st : LoopState) (r : IterRec) (l : List IterRec),
      (bendersLoop d eng cutTol eps fuel st).1 = r :: l →
      r = iterRecOf d eng cutTol st := by
  intro fuel st r l h
  cases fuel with
  | zero => simp [bendersLoop] at h
  | succ f =>
    rcases bendersLoop_succ_cases d eng cutTol eps f st with
      ⟨e, hit, heq⟩ | ⟨r0, st', cf, hit, hcase⟩
    · rw [heq] at h; simp at h
    · obtain ⟨-, hr0, -, -⟩ := bendersIter_ok_inv d eng cutTol st r0 st' cf hit
      rcases hcase with ⟨-, heq⟩ | ⟨-, -, heq⟩ | ⟨-, -, heq⟩ <;>
        · rw [heq] at h
          simp only [List.cons.injEq] at h
          rw [← h.1]
          exact hr0

theorem loop_chain_spec (d : ProbData) (eng : Engine) (cutTol eps : ℚ) :
    ∀ (fuel : ℕ) (st : LoopState),
      List.Chain' IterStep (bendersLoop d eng cutTol eps fuel st).1 := by
  intro fuel
  induction fuel with
  | zero => intro st; simp [bendersLoop]
  | succ f ih =>
    intro st
    rcases bendersLoop_succ_cases d eng cutTol eps f st with
      ⟨e, hit, heq⟩ | ⟨r0, st', cf, hit, hcase⟩
    · rw [heq]; simp
    · obtain ⟨-, hr0, hst', -⟩ := bendersIter_ok_inv d eng cutTol st r0 st' cf hit
      rcases hcase with ⟨-, heq⟩ | ⟨-, -, heq⟩ | ⟨-, -, heq⟩
      · rw [heq]; simp
      · rw [heq]
        rw [List.chain'_cons']
        refine ⟨?_, ih st'⟩
        intro b hb
        cases htr : (bendersLoop d eng cutTol eps f st').1 with
        | nil => rw [htr] at hb; simp at hb
        | cons b0 rest =>
          rw [htr] at hb
          simp only [List.head?_cons, Option.mem_def, Option.some.injEq] at hb
          have hb0 := loop_head_spec d eng cutTol eps f st' b0 rest htr
          rw [← hb, hb0, hr0, hst']
          constructor
          · simp [iterRecOf, stepStateOf]
          constructor
          · simp [iterRecOf, stepStateOf]
          · simp [iterRecOf, stepStateOf, updateBest]
      · rw [heq]; simp

theorem loop_mem_spec (d : ProbData) (eng : Engine) (cutTol eps : ℚ) :
    ∀ (fuel : ℕ) (st : LoopState) (r : IterRec),
      r ∈ (bendersLoop d eng cutTol eps fuel st).1 →
      ∃ stp : LoopState, r = iterRecOf d eng cutTol stp := by
  intro fuel
  induction fuel with
  | zero => intro st r h; simp [bendersLoop] at h
  | succ f ih =>
    intro st r h
    rcases bendersLoop_succ_cases d eng cutTol eps f st with
      ⟨e, hit, heq⟩ | ⟨r0, st', cf, hit, hcase⟩
    · rw [heq] at h; simp at h
    · obtain ⟨-, hr0, hst', -⟩ := bendersIter_ok_inv d eng cutTol st r0 st' cf hit
      rcases hcase with ⟨-, heq⟩ | ⟨-, -, heq⟩ | ⟨-, -, heq⟩
      · rw [heq] at h
        simp only [List.mem_singleton] at h
        exact ⟨st, h ▸ hr0⟩
      · rw [heq] at h
        rcases List.mem_cons.mp h with rfl | h2
        · exact ⟨st, hr0⟩
        · exact ih st' r h2
      · rw [heq] at h
        simp only [List.mem_singleton] at h
        exact ⟨st, h ▸ hr0⟩

theorem loop_finished_spec (d : ProbData) (eng : Engine) (cutTol eps : ℚ) :
    ∀ (fuel : ℕ) (st : LoopState) (b : Bool) (stf : LoopState) (m : ℚ),
      (bendersLoop d eng cutTol eps fuel st).2 = Outcome.finished b stf m →
      ∃ r, r ∈ (bendersLoop d eng cutTol eps fuel st).1 ∧
        stf.bestUB = some r.bestUB ∧ stf.cuts = r.cutsBefore ++ r.newCuts ∧
        stf.noIters = r.iter ∧ m = r.mpObj ∧
        (b = true → relGap r.bestUB r.mpObj ≤ eps) ∧
        (b = false → r.newCuts = [] ∧ ¬ relGap r.bestUB r.mpObj ≤ eps) := by
  intro fuel
  induction fuel with
  | zero => intro st b stf m h; simp [bendersLoop] at h
  | succ f ih =>
    intro st b stf m h
    rcases bendersLoop_succ_cases d eng cutTol eps f st with
      ⟨e, hit, heq⟩ | ⟨r0, st', cf, hit, hcase⟩
    · rw [heq] at h; simp at h
    · obtain ⟨-, hr0, hst', hcf⟩ := bendersIter_ok_inv d eng cutTol st r0 st' cf hit
      rcases hcase with ⟨hg, heq⟩ | ⟨hg, hcf2, heq⟩ | ⟨hg, hcf2, heq⟩
      · rw [heq] at h ⊢
        simp only [Outcome.finished.injEq] at h
        obtain ⟨hb, hstf, hm⟩ := h
        refine ⟨r0, by simp, ?_, ?_, ?_, hm.symm, fun _ => hg, fun hb2 => ?_⟩
        · rw [← hstf, hst', hr0]; simp [stepStateOf, iterRecOf]
        · rw [← hstf, hst', hr0]; simp [stepStateOf, iterRecOf]
        · rw [← hstf, hst', hr0]; simp [stepStateOf, iterRecOf]
        · rw [← hb] at hb2; cases hb2
      · rw [heq] at h ⊢
        obtain ⟨r, hmem, hrest⟩ := ih st' b stf m h
        exact ⟨r, List.mem_cons_of_mem r0 hmem, hrest⟩
      · rw [heq] at h ⊢
        simp only [Outcome.finished.injEq] at h
        obtain ⟨hb, hstf, hm⟩ := h
        have hnc : r0.newCuts = [] := by
          rw [hr0]
          simp only [iterRecOf]
          have : (iterCuts d eng cutTol (st.noIters + 1)).isEmpty = true := by
            rw [hcf2] at hcf
            cases hemp : (iterCuts d eng cutTol (st.noIters + 1)).isEmpty with
            | true => rfl
            | false => rw [hemp] at hcf; cases hcf
          exact List.isEmpty_iff.mp this
        refine ⟨r0, by simp, ?_, ?_, ?_, hm.symm, fun hb2 => ?_, fun _ => ⟨hnc, hg⟩⟩
        · rw [← hstf, hst', hr0]; simp [stepStateOf, iterRecOf]
        · rw [← hstf, hst', hr0]; simp [stepStateOf, iterRecOf]
        · rw [← hstf, hst', hr0]; simp [stepStateOf, iterRecOf]
        · rw [← hb] at hb2; cases hb2

theorem iterUB_le_of_no_cut (d : ProbData) (eng : Engine) (cutTol : ℚ) (i : ℕ)
    (hp1 : probSum d = 1) (hpn : ∀ s ∈ d.scenarios, 0 ≤ d.prob s)
    (hnc : iterCuts d eng cutTol i = []) :
    iterUB d eng i ≤ masterObj d (eng.master i) + cutTol := by
  have hfil : (d.scenarios.filter (violatedB cutTol (eng.master i) (eng.sp i))) = [] :=
    List.map_eq_nil_iff.mp hnc
  have hnv : ∀ s ∈ d.scenarios, (eng.sp i s).qvalue ≤ (eng.master i).eta s + cutTol := by
    intro s hs
    have hv := List.filter_eq_nil_iff.mp hfil s hs
    simp only [violatedB, decide_eq_true_eq] at hv
    have := not_lt.mp hv
    linarith
  have h1 : probWeighted d (eng.sp i) ≤
      qSum d.scenarios (fun s => d.prob s * (eng.master i).eta s + cutTol * d.prob s) := by
    apply qSum_le_qSum
    intro s hs
    have hq := hnv s hs
    have hp := hpn s hs
    nlinarith
  rw [qSum_add_distrib, qSum_mul_left] at h1
  have hps : qSum d.scenarios (fun s => d.prob s) = probSum d := rfl
  rw [hps, hp1, mul_one] at h1
  have : etaExpect d (eng.master i) = qSum d.scenarios (fun s => d.prob s * (eng.master i).eta s) := rfl
  unfold iterUB masterObj
  rw [this]
  linarith

/-- Claim C1: for every run of the Benders driver, whenever the loop
finishes and the final master objective is reported — whether through the
gap check or because no scenario produced a violated cut — the relative
gap `(bestUB - MPobj) / (1 + abs bestUB)` at exit is at most epsilon.
Hypotheses: the engine reports the master objective value consistently
with the returned solution, the scenario probabilities are non-negative
and sum to one (the caller contract of the data model), and the
cut-violation tolerance is at most epsilon (both default to `1e-4`),
which is non-negative. -/
theorem c1_termination_gap (d : ProbData) (eng : Engine) (cutTol eps : ℚ) (fuel : ℕ)
    (hobj : ∀ i, (eng.master i).objVal = masterObj d (eng.master i))
    (hp1 : probSum d = 1)
    (hpn : ∀ s ∈ d.scenarios, 0 ≤ d.prob s)
    (htol : cutTol ≤ eps) (heps : 0 ≤ eps) :
    ∀ (b : Bool) (stf : LoopState) (m : ℚ),
      (multiBendersRun d eng cutTol eps fuel).2 = Outcome.finished b stf m →
      ∃ bu, stf.bestUB = some bu ∧ relGap bu m ≤ eps := by
  intro b stf m h
  obtain ⟨r, hmem, hbu, -, -, hm, hgt, hgf⟩ :=
    loop_finished_spec d eng cutTol eps fuel _ b stf m h
  refine ⟨r.bestUB, hbu, ?_⟩
  rw [hm]
  cases b with
  | true => exact hgt rfl
  | false =>
    obtain ⟨hnc, hng⟩ := hgf rfl
    obtain ⟨stp, hshape⟩ := loop_mem_spec d eng cutTol eps fuel _ r hmem
    exfalso
    apply hng
    have hcuts : iterCuts d eng cutTol (stp.noIters + 1) = [] := by
      rw [hshape] at hnc
      simpa [iterRecOf] using hnc
    have hub := iterUB_le_of_no_cut d eng cutTol (stp.noIters + 1) hp1 hpn hcuts
    have hbe : r.bestUB ≤ r.ub := by
      rw [hshape]
      simp only [iterRecOf]
      exact updateBest_le _ _
    have hude : r.ub = iterUB d eng (stp.noIters + 1) := by rw [hshape]; rfl
    have hmo : r.mpObj = masterObj d (eng.master (stp.noIters + 1)) := by
      rw [hshape]
      simp only [iterRecOf]
      exact hobj (stp.noIters + 1)
    apply relGap_le_of_diff_le _ htol heps
    rw [hmo]
    rw [hude] at hbe
    linarith

/-- Witness for C1: on the one-scenario zero instance the run finishes and
the theorem yields a relative gap within epsilon. -/
theorem c1_witness :
    ∃ bu, (LoopState.mk (some 0) [] 1 0).bestUB = some bu ∧ relGap bu 0 ≤ tol4 :=
  c1_termination_gap wData wEng tol4 tol4 5
    (fun i => by
      show wSol.objVal = masterObj wData wSol
      simp [wSol, masterObj, firstStageCost, etaExpect, qSum, qSum2, qSum3, wData])
    (by simp [probSum, qSum, wData])
    (by intro s hs; simp [wData])
    le_rfl (by norm_num [tol4])
    true (LoopState.mk (some 0) [] 1 0) 0
    (by simp [multiBendersRun, bendersLoop, bendersIter, scenarioFold, dualCheckB, dualSPobj,
      dualFirstPart, capCPart, capSPart, capMPart, bandPart, demPart, qSum, qSum2, qSum3, xqSum,
      wData, wEng, wSol, wSP, firstStageCost, probWeighted, updateBest, relGap, tol4, XQ.add,
      XQ.sub, XQ.neg, XQ.absX, XQ.ltB, XQ.mul, capTerm, capToXQ, newCutList, violatedB])

/-- Claim C6: if in the first iteration no scenario's surrogate value is
below its scenario objective minus the cut-violation tolerance (and every
strong-duality check passes, so the run does not abort), then no cut is
added, the loop terminates, and the run finishes in exactly one
iteration with zero cuts. -/
theorem c6_no_violation_one_iteration (d : ProbData) (eng : Engine) (cutTol eps : ℚ)
    (fuel : ℕ)
    (hchk : ∀ s ∈ d.scenarios, dualCheckB d s (eng.master 1) (eng.sp 1 s) = true)
    (hnv : ∀ s ∈ d.scenarios, ¬ ((eng.master 1).eta s < (eng.sp 1 s).qvalue - cutTol))
    (hfuel : 1 ≤ fuel) :
    ∃ (b : Bool) (stf : LoopState) (m : ℚ),
      (multiBendersRun d eng cutTol eps fuel).2 = Outcome.finished b stf m ∧
      stf.noIters = 1 ∧ stf.noCuts = 0 ∧ stf.cuts = [] ∧
      (multiBendersRun d eng cutTol eps fuel).1.length = 1 := by
  obtain ⟨f, rfl⟩ : ∃ f, fuel = f + 1 := ⟨fuel - 1, (Nat.succ_pred_eq_of_pos hfuel).symm⟩
  have hcuts0 : iterCuts d eng cutTol 1 = [] := by
    unfold iterCuts newCutList
    have hf : d.scenarios.filter (violatedB cutTol (eng.master 1) (eng.sp 1)) = [] := by
      apply List.filter_eq_nil_iff.mpr
      intro s hs
      simp [violatedB, hnv s hs]
    rw [hf]
    rfl
  have hit := bendersIter_eval d eng cutTol ⟨none, [], 0, 0⟩ (by simpa using hchk)
  by_cases hg : relGap (iterRecOf d eng cutTol ⟨none, [], 0, 0⟩).bestUB
      (iterRecOf d eng cutTol ⟨none, [], 0, 0⟩).mpObj ≤ eps
  · refine ⟨true, stepStateOf d eng cutTol ⟨none, [], 0, 0⟩,
      (iterRecOf d eng cutTol ⟨none, [], 0, 0⟩).mpObj, ?_, ?_, ?_, ?_, ?_⟩
    · simp [multiBendersRun, bendersLoop, hit, hg]
    · simp [stepStateOf]
    · simp [stepStateOf, hcuts0]
    · simp [stepStateOf, hcuts0]
    · simp [multiBendersRun, bendersLoop, hit, hg]
  · refine ⟨false, stepStateOf d eng cutTol ⟨none, [], 0, 0⟩,
      (iterRecOf d eng cutTol ⟨none, [], 0, 0⟩).mpObj, ?_, ?_, ?_, ?_, ?_⟩
    · simp [multiBendersRun, bendersLoop, hit, hg, hcuts0]
    · simp [stepStateOf]
    · simp [stepStateOf, hcuts0]
    · simp [stepStateOf, hcuts0]
    · simp [multiBendersRun, bendersLoop, hit, hg, hcuts0]

/-- Witness for C6: on the one-scenario zero instance the hypotheses hold
and the run finishes in one iteration with no cuts. -/
theorem c6_witness :
    ∃ (b : Bool) (stf : LoopState) (m : ℚ),
      (multiBendersRun wData wEng tol4 tol4 3).2 = Outcome.finished b stf m ∧
      stf.noIters = 1 ∧ stf.noCuts = 0 ∧ stf.cuts = [] ∧
      (multiBendersRun wData wEng tol4 tol4 3).1.length = 1 :=
  c6_no_violation_one_iteration wData wEng tol4 tol4 3
    (by
      intro s hs
      simp only [wData] at hs
      simp only [List.mem_singleton] at hs
      subst hs
      simp [dualCheckB, dualSPobj, dualFirstPart, capCPart, capSPart, capMPart, bandPart,
        demPart, qSum, qSum2, qSum3, xqSum, wData, wEng, wSol, wSP, XQ.add, XQ.sub, XQ.neg,
        XQ.absX, XQ.ltB, XQ.mul, capTerm, capToXQ, tol4])
    (by
      intro s hs
      simp only [wData] at hs
      simp only [List.mem_singleton] at hs
      subst hs
      simp [wEng, wSol, wSP, tol4])
    (by norm_num)

/-- Claim C3: in every iteration the driver appends to the master exactly
one cut per scenario whose surrogate value is below the scenario
objective minus the cut-violation tolerance — the cut built by `mkCut`
from the utilization duals (as coefficients of the reservation variables)
and the capacity/demand dual constants — and the master's cut list only
ever grows by appending, so a cut added once remains for the rest of the
run. -/
theorem c3_cut_append (d : ProbData) (eng : Engine) (cutTol eps : ℚ) :
    (∀ (st : LoopState) (r : IterRec) (st' : LoopState) (cf : Bool),
        bendersIter d eng cutTol st = Except.ok (r, st', cf) →
        st'.cuts = st.cuts ++
          (d.scenarios.filter (violatedB cutTol (eng.master (st.noIters + 1))
              (eng.sp (st.noIters + 1)))).map
            (fun s => mkCut d s (eng.sp (st.noIters + 1) s))) ∧
    (∀ (fuel : ℕ) (st : LoopState),
        List.Chain' (fun a b => b.cutsBefore = a.cutsBefore ++ a.newCuts)
          (bendersLoop d eng cutTol eps fuel st).1) := by
  constructor
  · intro st r st' cf h
    obtain ⟨-, -, hst', -⟩ := bendersIter_ok_inv d eng cutTol st r st' cf h
    rw [hst']
    rfl
  · intro fuel st
    exact List.Chain'.imp (fun a b hab => hab.2.1) (loop_chain_spec d eng cutTol eps fuel st)

/-- Witness for C3: on the instance with one violated scenario, the
iteration from the initial state appends exactly that scenario's cut. -/
theorem c3_witness :
    (stepStateOf cData cEng tol4 ⟨none, [], 0, 0⟩).cuts =
      (⟨none, [], 0, 0⟩ : LoopState).cuts ++
        (cData.scenarios.filter (violatedB tol4 (cEng.master 1) (cEng.sp 1))).map
          (fun s => mkCut cData s (cEng.sp 1 s)) :=
  (c3_cut_append cData cEng tol4 tol4).1 ⟨none, [], 0, 0⟩
    (iterRecOf cData cEng tol4 ⟨none, [], 0, 0⟩)
    (stepStateOf cData cEng tol4 ⟨none, [], 0, 0⟩)
    (! (iterCuts cData cEng tol4 1).isEmpty)
    (bendersIter_eval cData cEng tol4 ⟨none, [], 0, 0⟩ (by
      intro s hs
      simp only [cData, wData] at hs
      simp only [List.mem_singleton] at hs
      subst hs
      simp [dualCheckB, dualSPobj, dualFirstPart, capCPart, capSPart, capMPart, bandPart,
        demPart, qSum, qSum2, qSum3, xqSum, cData, wData, cEng, wSol, cSP, wSP, XQ.add, XQ.sub,
        XQ.neg, XQ.absX, XQ.ltB, XQ.mul, capTerm, capToXQ, tol4]))

/-- Claim C4: in every iteration the driver reconstructs the dual
objective for each scenario in order and compares it with the primal
subproblem objective under the hard-coded `1e-4` tolerance; the iteration
aborts at exactly the first scenario whose check fails (and the whole run
then ends as an unrecoverable abort at that iteration and scenario), and
when every check passes the iteration proceeds to its normal result,
unaffected by the checks. -/
theorem c4_duality_gate (d : ProbData) (eng : Engine) (cutTol eps : ℚ) (st : LoopState)
    (e : String) (f : ℕ) :
    (bendersIter d eng cutTol st = Except.error e ↔
      ∃ l₁ l₂, d.scenarios = l₁ ++ e :: l₂ ∧
        (∀ s ∈ l₁,
          dualCheckB d s (eng.master (st.noIters + 1)) (eng.sp (st.noIters + 1) s) = true) ∧
        dualCheckB d e (eng.master (st.noIters + 1)) (eng.sp (st.noIters + 1) e) = false) ∧
    ((∀ s ∈ d.scenarios,
        dualCheckB d s (eng.master (st.noIters + 1)) (eng.sp (st.noIters + 1) s) = true) →
      bendersIter d eng cutTol st =
        Except.ok (iterRecOf d eng cutTol st, stepStateOf d eng cutTol st,
          ! (iterCuts d eng cutTol (st.noIters + 1)).isEmpty)) ∧
    (bendersIter d eng cutTol st = Except.error e →
      bendersLoop d eng cutTol eps (f + 1) st = ([], Outcome.aborted (st.noIters + 1) e)) := by
  refine ⟨⟨?_, ?_⟩, bendersIter_eval d eng cutTol st, ?_⟩
  · intro h
    have hf := bendersIter_error_inv d eng cutTol st e h
    exact (scenarioFold_error_iff d cutTol _ _ d.scenarios _ e).mp hf
  · intro hex
    have hf := (scenarioFold_error_iff d cutTol (eng.master (st.noIters + 1))
      (eng.sp (st.noIters + 1)) d.scenarios
      (firstStageCost d (eng.master (st.noIters + 1)), []) e).mpr hex
    unfold bendersIter
    rw [hf]
  · intro h
    simp [bendersLoop, h]

/-- Witness for C4: with an engine whose subproblem answer claims
objective 1 under all-zero duals, the check fails at the only scenario and
the run aborts there. -/
theorem c4_witness :
    bendersIter wData bEng tol4 ⟨none, [], 0, 0⟩ = Except.error "s1" ∧
    (bendersLoop wData bEng tol4 tol4 3 ⟨none, [], 0, 0⟩).2 = Outcome.aborted 1 "s1" := by
  have h := c4_duality_gate wData bEng tol4 tol4 ⟨none, [], 0, 0⟩ "s1" 2
  have hfail : dualCheckB wData "s1" (bEng.master 1) (bEng.sp 1 "s1") = false := by
    simp [dualCheckB, dualSPobj, dualFirstPart, capCPart, capSPart, capMPart, bandPart,
      demPart, qSum, qSum2, qSum3, xqSum, wData, bEng, wSol, wSP, XQ.add, XQ.sub, XQ.neg,
      XQ.absX, XQ.ltB, XQ.mul, capTerm, capToXQ, tol4]
    norm_num
  have herr : bendersIter wData bEng tol4 ⟨none, [], 0, 0⟩ = Except.error "s1" :=
    h.1.mpr ⟨[], [], by simp [wData], by simp, hfail⟩
  refine ⟨herr, ?_⟩
  rw [h.2.2 herr]

theorem masterFeasible_of_append (d : ProbData) (c1 c2 : List BCut) (ms : MasterSol)
    (h : MasterFeasible d (c1 ++ c2) ms) : MasterFeasible d c1 ms := by
  obtain ⟨h1, h2, h3, h4⟩ := h
  exact ⟨h1, h2, h3, fun c hc => h4 c (List.mem_append_left _ hc)⟩

theorem chain_transfer {α : Type} {R S : α → α → Prop} {P : α → Prop} :
    ∀ (l : List α), List.Chain' R l → (∀ x ∈ l, P x) →
      (∀ a b, R a b → P a → P b → S a b) → List.Chain' S l := by
  intro l
  induction l with
  | nil => intro _ _ _; simp
  | cons a t ih =>
    intro hc hm himp
    cases t with
    | nil => simp
    | cons b t2 =>
      rw [List.chain'_cons] at hc ⊢
      refine ⟨himp a b hc.1 (hm a (by simp)) (hm b (by simp)), ?_⟩
      exact ih hc.2 (fun x hx => hm x (List.mem_cons_of_mem a hx)) himp

/-- Claim C5: across the iterations of one run the best-upper-bound
tracker is non-increasing — each iteration it becomes the minimum of its
previous value and the iteration upper bound, which equals the
first-stage reservation cost plus the probability-weighted scenario
objectives — and, provided every master solve returns an optimum of the
master with its current cuts, the master objective used as the lower
bound is non-decreasing. -/
theorem c5_bound_monotone (d : ProbData) (eng : Engine) (cutTol eps : ℚ) (fuel : ℕ)
    (hopt : ∀ r ∈ (multiBendersRun d eng cutTol eps fuel).1,
      IsOptimal d r.cutsBefore r.sol) :
    List.Chain' (fun a b => b.bestUB ≤ a.bestUB) (multiBendersRun d eng cutTol eps fuel).1 ∧
    List.Chain' (fun a b => b.bestUB = min b.ub a.bestUB)
      (multiBendersRun d eng cutTol eps fuel).1 ∧
    (∀ r l, (multiBendersRun d eng cutTol eps fuel).1 = r :: l → r.bestUB = r.ub) ∧
    (∀ r ∈ (multiBendersRun d eng cutTol eps fuel).1,
      r.ub = firstStageCost d r.sol + probWeighted d (eng.sp r.iter)) ∧
    List.Chain' (fun a b => a.mpObj ≤ b.mpObj) (multiBendersRun d eng cutTol eps fuel).1 := by
  have hchain := loop_chain_spec d eng cutTol eps fuel ⟨none, [], 0, 0⟩
  refine ⟨?_, ?_, ?_, ?_, ?_⟩
  · refine List.Chain'.imp ?_ hchain
    intro a b hab
    rw [hab.2.2]
    exact min_le_right _ _
  · exact List.Chain'.imp (fun a b hab => hab.2.2) hchain
  · intro r l h
    have := loop_head_spec d eng cutTol eps fuel ⟨none, [], 0, 0⟩ r l h
    rw [this]
    simp [iterRecOf, updateBest]
  · intro r hr
    obtain ⟨stp, rfl⟩ := loop_mem_spec d eng cutTol eps fuel _ r hr
    simp [iterRecOf, iterUB]
  · refine chain_transfer (P := fun r => IsOptimal d r.cutsBefore r.sol ∧ r.mpObj = r.sol.objVal)
      _ hchain ?_ ?_
    · intro r hr
      refine ⟨hopt r hr, ?_⟩
      obtain ⟨stp, rfl⟩ := loop_mem_spec d eng cutTol eps fuel _ r hr
      simp [iterRecOf]
    · intro a b hab hpa hpb
      have hfb : MasterFeasible d a.cutsBefore b.sol := by
        apply masterFeasible_of_append d a.cutsBefore a.newCuts b.sol
        rw [← hab.2.1]
        exact hpb.1.1
      have h1 : masterObj d a.sol ≤ masterObj d b.sol := hpa.1.2.2 b.sol hfb
      rw [hpa.2, hpb.2, hpa.1.2.1, hpb.1.2.1]
      exact h1

theorem wOptimal : IsOptimal wData [] wSol := by
  refine ⟨⟨?_, ?_, ?_, ?_⟩, ?_, ?_⟩
  · intro u hu; simp [wData] at hu
  · intro u hu; simp [wData] at hu
  · intro s hs; simp [wSol]
  · intro c hc; simp at hc
  · simp [wSol, masterObj, firstStageCost, etaExpect, qSum, qSum2, qSum3, wData]
  · intro ms2 hf
    have h3 := hf.2.2.1 "s1" (by simp [wData])
    simp only [wSol, masterObj, firstStageCost, etaExpect, qSum, qSum2, qSum3, wData]
    simp
    linarith

/-- Witness for C5: the one-iteration run on the zero instance, whose
single master solve is optimal, satisfies every monotonicity conjunct. -/
theorem c5_witness :
    List.Chain' (fun a b => b.bestUB ≤ a.bestUB) (multiBendersRun wData wEng tol4 tol4 5).1 ∧
    List.Chain' (fun a b => b.bestUB = min b.ub a.bestUB)
      (multiBendersRun wData wEng tol4 tol4 5).1 ∧
    (∀ r l, (multiBendersRun wData wEng tol4 tol4 5).1 = r :: l → r.bestUB = r.ub) ∧
    (∀ r ∈ (multiBendersRun wData wEng tol4 tol4 5).1,
      r.ub = firstStageCost wData r.sol + probWeighted wData (wEng.sp r.iter)) ∧
    List.Chain' (fun a b => a.mpObj ≤ b.mpObj) (multiBendersRun wData wEng tol4 tol4 5).1 := by
  apply c5_bound_monotone wData wEng tol4 tol4 5
  have hpass : ∀ s ∈ wData.scenarios,
      dualCheckB wData s (wEng.master 1) (wEng.sp 1 s) = true := by
    intro s hs
    simp only [wData] at hs
    simp only [List.mem_singleton] at hs
    subst hs
    simp [dualCheckB, dualSPobj, dualFirstPart, capCPart, capSPart, capMPart, bandPart,
      demPart, qSum, qSum2, qSum3, xqSum, wData, wEng, wSol, wSP, XQ.add, XQ.sub, XQ.neg,
      XQ.absX, XQ.ltB, XQ.mul, capTerm, capToXQ, tol4]
  have hit := bendersIter_eval wData wEng tol4 ⟨none, [], 0, 0⟩ (by simpa using hpass)
  have hg : relGap (iterRecOf wData wEng tol4 ⟨none, [], 0, 0⟩).bestUB
      (iterRecOf wData wEng tol4 ⟨none, [], 0, 0⟩).mpObj ≤ tol4 := by
    simp [iterRecOf, updateBest, iterUB, firstStageCost, probWeighted, qSum, qSum2, qSum3,
      wData, wEng, wSol, wSP, relGap, tol4]
  have htr : (multiBendersRun wData wEng tol4 tol4 5).1 =
      [iterRecOf wData wEng tol4 ⟨none, [], 0, 0⟩] := by
    simp [multiBendersRun, bendersLoop, hit, hg]
  intro r hr
  rw [htr] at hr
  rw [List.mem_singleton] at hr
  subst hr
  exact wOptimal

theorem qSum_congr (l : List String) (f g : String → ℚ) (h : ∀ s ∈ l, f s = g s) :
    qSum l f = qSum l g := by
  induction l with
  | nil => rfl
  | cons a t ih =>
    rw [qSum_cons, qSum_cons, h a (by simp), ih (fun x hx => h x (by simp [hx]))]

/-- Counterexample to C2 as stated: with a router of infinite bandwidth
capacity and dual price `-1`, the bandwidth contribution makes the dual
reconstruction and the cut constant negative infinity, not zero — the
source guards only the CPU, storage and memory capacity terms against an
infinite capacity, not the router-bandwidth term. -/
theorem c2_bandwidth_counterexample :
    dualSPobj xData "s1" wSol xSP = XQ.ninf ∧
    cutConst xData "s1" xSP = XQ.ninf ∧
    (mkCut xData "s1" xSP).const ≠ XQ.fin 0 := by
  have hd : dualSPobj xData "s1" wSol xSP = XQ.ninf := by
    norm_num [dualSPobj, dualFirstPart, capCPart, capSPart, capMPart, bandPart, demPart,
      qSum, qSum2, qSum3, xqSum, xData, wData, wSol, xSP, wSP, XQ.add, XQ.mul, capTerm,
      capToXQ]
  have hcc : cutConst xData "s1" xSP = XQ.ninf := by
    norm_num [cutConst, capCPart, capSPart, capMPart, bandPart, demPart, qSum, qSum2, qSum3,
      xqSum, xData, wData, xSP, wSP, XQ.add, XQ.mul, capTerm, capToXQ]
  refine ⟨hd, hcc, ?_⟩
  have hmc : (mkCut xData "s1" xSP).const = XQ.ninf := hcc
  rw [hmc]
  intro h
  exact XQ.noConfusion h

/-- Claim C2 (amended): for the three provider capacity families — CPU,
storage, memory — an infinite capacity contributes exactly zero to the
dual-objective reconstruction and to the constant of a generated cut,
regardless of the sign of the reported dual price: changing those prices
arbitrarily at the infinite-capacity provider changes neither quantity.
The router-bandwidth family carries no such guard (see the
counterexample). -/
theorem c2_infinite_capacity_zero (d : ProbData) (s : String) (ms : MasterSol)
    (r r2 : SPResult) (p0 : String)
    (hc : d.P_CCapacity p0 = none) (hs : d.P_SCapacity p0 = none)
    (hm : d.P_MCapacity p0 = none)
    (hvu : r2.vu = r.vu) (hru : r2.ru = r.ru) (hbpi : r2.bpi = r.bpi) (hdpi : r2.dpi = r.dpi)
    (hcp : ∀ q, q ≠ p0 → r2.cpi q = r.cpi q)
    (hsp : ∀ q, q ≠ p0 → r2.spi q = r.spi q)
    (hmp : ∀ q, q ≠ p0 → r2.mpi q = r.mpi q) :
    (∀ price : ℚ, capTerm (d.P_CCapacity p0) price = 0 ∧
      capTerm (d.P_SCapacity p0) price = 0 ∧ capTerm (d.P_MCapacity p0) price = 0) ∧
    dualSPobj d s ms r2 = dualSPobj d s ms r ∧
    cutConst d s r2 = cutConst d s r := by
  have hC : capCPart d r2 = capCPart d r := by
    apply qSum_congr
    intro q _
    by_cases hq : q = p0
    · subst hq; rw [hc]; rfl
    · rw [hcp q hq]
  have hS : capSPart d r2 = capSPart d r := by
    apply qSum_congr
    intro q _
    by_cases hq : q = p0
    · subst hq; rw [hs]; rfl
    · rw [hsp q hq]
  have hM : capMPart d r2 = capMPart d r := by
    apply qSum_congr
    intro q _
    by_cases hq : q = p0
    · subst hq; rw [hm]; rfl
    · rw [hmp q hq]
  have hB : bandPart d r2 = bandPart d r := by
    unfold bandPart
    rw [hbpi]
  have hD : demPart d s r2 = demPart d s r := by
    unfold demPart
    rw [hdpi]
  have hF : dualFirstPart d ms r2 = dualFirstPart d ms r := by
    unfold dualFirstPart
    rw [hvu, hru]
  refine ⟨fun price => ⟨by rw [hc]; rfl, by rw [hs]; rfl, by rw [hm]; rfl⟩, ?_, ?_⟩
  · unfold dualSPobj
    rw [hC, hS, hM, hB, hD, hF]
  · unfold cutConst
    rw [hC, hS, hM, hB, hD]

/-- Witness for C2 (amended): on the instance whose only provider has all
three capacities infinite, flipping the signs of all its capacity duals
changes neither the dual reconstruction nor the cut constant, and each
guarded term is zero. -/
theorem c2_witness :
    (∀ price : ℚ, capTerm (iData.P_CCapacity "P1") price = 0 ∧
      capTerm (iData.P_SCapacity "P1") price = 0 ∧
      capTerm (iData.P_MCapacity "P1") price = 0) ∧
    dualSPobj iData "s1" wSol iSPb = dualSPobj iData "s1" wSol iSPa ∧
    cutConst iData "s1" iSPb = cutConst iData "s1" iSPa :=
  c2_infinite_capacity_zero iData "s1" wSol iSPa iSPb "P1" rfl rfl rfl rfl rfl rfl rfl
    (fun q hq => by simp [iSPa, iSPb, wSP, hq])
    (fun q hq => by simp [iSPa, iSPb, wSP, hq])
    (fun q hq => by simp [iSPa, iSPb, wSP, hq])

/-- Claim C7: `buildMP` returns a master model whose variables are exactly
the non-negative integer reservations `xr[u,v,p]`, the non-negative
continuous router reservations `yr[u,r]`, and the continuous surrogates
`eta[s]` — all carrying the engine-default lower bound 0, i.e. `eta` takes
the claim's branch for a recourse cost known non-negative — whose
objective minimizes Σ reservation-cost·xr + Σ router-cost·yr +
Σ probability·eta, and which contains no constraints beyond variable
bounds at construction time. -/
theorem c7_master_model (d : ProbData) :
    (buildMP d).constrs = [] ∧
    (buildMP d).sense = ObjSense.minimize ∧
    (∀ mv : MPVar, mv ∈ (buildMP d).vars ↔
      ((∃ u ∈ d.users, ∃ v ∈ d.VMs, ∃ p ∈ d.providers,
          mv = MPVar.mk (MPVarId.xr u v p) VKind.integer 0) ∨
       (∃ u ∈ d.users, ∃ rr ∈ d.routers,
          mv = MPVar.mk (MPVarId.yr u rr) VKind.continuous 0) ∨
       (∃ s ∈ d.scenarios, mv = MPVar.mk (MPVarId.eta s) VKind.continuous 0))) ∧
    (∀ g : MPVarId → ℚ, evalObj (buildMP d) g =
      qSum3 d.providers d.VMs d.users (fun p v u => d.VM_rcost v * g (MPVarId.xr u v p)) +
      qSum2 d.routers d.users (fun rr u => d.R_rcost rr * g (MPVarId.yr u rr)) +
      qSum d.scenarios (fun s => d.prob s * g (MPVarId.eta s))) := by
  refine ⟨rfl, rfl, ?_, ?_⟩
  · intro mv
    simp only [buildMP, List.mem_append, mem_terms3, mem_terms2, List.mem_map]
    constructor
    · rintro ((⟨u, hu, v, hv, p, hp, rfl⟩ | ⟨u, hu, rr, hr, rfl⟩) | ⟨s, hs, rfl⟩)
      · exact Or.inl ⟨u, hu, v, hv, p, hp, rfl⟩
      · exact Or.inr (Or.inl ⟨u, hu, rr, hr, rfl⟩)
      · exact Or.inr (Or.inr ⟨s, hs, rfl⟩)
    · rintro (⟨u, hu, v, hv, p, hp, rfl⟩ | ⟨u, hu, rr, hr, rfl⟩ | ⟨s, hs, rfl⟩)
      · exact Or.inl (Or.inl ⟨u, hu, v, hv, p, hp, rfl⟩)
      · exact Or.inl (Or.inr ⟨u, hu, rr, hr, rfl⟩)
      · exact Or.inr ⟨s, hs, rfl⟩
  · intro g
    simp only [evalObj, buildMP, List.map_append, List.sum_append, sum_map_terms3,
      sum_map_terms2, List.map_map]
    simp [qSum, List.map_map, Function.comp_def]

/-- Witness for C7: the master model of the one-scenario zero instance has
no constraints and contains the surrogate variable of its scenario with
lower bound zero. -/
theorem c7_witness :
    (buildMP wData).constrs = [] ∧
    (MPVar.mk (MPVarId.eta "s1") VKind.continuous 0 ∈ (buildMP wData).vars) := by
  have h := c7_master_model wData
  refine ⟨h.1, ?_⟩
  apply (h.2.2.1 (MPVar.mk (MPVarId.eta "s1") VKind.continuous 0)).mpr
  exact Or.inr (Or.inr ⟨"s1", by simp [wData], rfl⟩)

/-- Claim C8: the mutation performed by `modifyAndSolveSP` on the shared
subproblem model sets the right-hand sides of the VM and router
utilization bounds to the fixed reservation values and the VM demand
right-hand sides to the scenario demand, replaces the objective with the
scenario's utilization/on-demand costs, and changes nothing else: the
variables with their bounds are untouched and every constraint of another
family (capacity, flow balance) is left exactly as built. -/
theorem c8_subproblem_frame (d : ProbData) (s : String)
    (xrsol : String → String → String → ℚ) (yrsol : String → String → ℚ) :
    (modifySP (buildSP d) d s xrsol yrsol).vars = (buildSP d).vars ∧
    (modifySP (buildSP d) d s xrsol yrsol).objTerms = spObjTerms d s ∧
    (modifySP (buildSP d) d s xrsol yrsol).constrs =
      (buildSP d).constrs.map (modifyRhs d s xrsol yrsol) ∧
    (∀ c : SPCon, isTargetCid c.cid = false → modifyRhs d s xrsol yrsol c = c) ∧
    (∀ u v p rhs, modifyRhs d s xrsol yrsol ⟨SPCid.vmUtil u v p, rhs⟩ =
      ⟨SPCid.vmUtil u v p, XQ.fin (xrsol u v p)⟩) ∧
    (∀ u rr rhs, modifyRhs d s xrsol yrsol ⟨SPCid.rUtil u rr, rhs⟩ =
      ⟨SPCid.rUtil u rr, XQ.fin (yrsol u rr)⟩) ∧
    (∀ u v rhs, modifyRhs d s xrsol yrsol ⟨SPCid.vmDem u v, rhs⟩ =
      ⟨SPCid.vmDem u v, XQ.fin (d.VM_demands s u v)⟩) := by
  refine ⟨rfl, rfl, rfl, ?_, fun u v p rhs => rfl, fun u rr rhs => rfl, fun u v rhs => rfl⟩
  intro c hc
  rcases c with ⟨cid, rhs⟩
  cases cid <;> first | rfl | (exfalso; simp [isTargetCid] at hc)

/-- Witness for C8: on the zero instance the frame equalities hold at a
concrete first-stage assignment, and a capacity constraint is untouched. -/
theorem c8_witness :
    (modifySP (buildSP wData) wData "s1" (fun _ _ _ => 2) (fun _ _ => 3)).vars =
      (buildSP wData).vars ∧
    modifyRhs wData "s1" (fun _ _ _ => 2) (fun _ _ => 3)
      ⟨SPCid.cpuCap "P1", XQ.fin 9⟩ = ⟨SPCid.cpuCap "P1", XQ.fin 9⟩ := by
  have h := c8_subproblem_frame wData "s1" (fun _ _ _ => 2) (fun _ _ => 3)
  exact ⟨h.1, h.2.2.2.1 ⟨SPCid.cpuCap "P1", XQ.fin 9⟩ rfl⟩

/-- Claim C9: re-evaluating a scenario with the same scenario index and
the same fixed first-stage values yields the same subproblem model — the
mutation overwrites every piece of model state it ever touches, so the
result is independent of the state left by earlier evaluations of other
scenarios — and hence the same objective and dual prices from any engine
that is a function of the model. -/
theorem c9_idempotent {α : Type} (m : SPModel) (d : ProbData) (s s2 : String)
    (xrsol xrsol2 : String → String → String → ℚ) (yrsol yrsol2 : String → String → ℚ)
    (solve : SPModel → α) :
    modifySP (modifySP m d s2 xrsol2 yrsol2) d s xrsol yrsol = modifySP m d s xrsol yrsol ∧
    solve (modifySP (modifySP m d s2 xrsol2 yrsol2) d s xrsol yrsol) =
      solve (modifySP m d s xrsol yrsol) := by
  have h : modifySP (modifySP m d s2 xrsol2 yrsol2) d s xrsol yrsol =
      modifySP m d s xrsol yrsol := by
    have hl : m.constrs.map
        ((modifyRhs d s xrsol yrsol) ∘ (modifyRhs d s2 xrsol2 yrsol2)) =
        m.constrs.map (modifyRhs d s xrsol yrsol) := by
      apply List.map_congr_left
      intro c _
      rcases c with ⟨cid, rhs⟩
      cases cid <;> rfl
    unfold modifySP
    rw [List.map_map, hl]
  exact ⟨h, congrArg solve h⟩

/-- Claim C10: the `U balance` constraint of `buildSP` identifies
provider-origin flow by testing whether an arc's tail identifier begins
with the character `P`; for any instance in which every provider
identifier begins with `P`, no router identifier does, and every arc tail
is a provider or a router, the code's right-hand side coincides with the
intended "total flow originating from provider nodes". -/
theorem c10_provider_prefix (d : ProbData) (flv : String × String → ℚ)
    (hp : ∀ p ∈ d.providers, headIsP p = true)
    (hr : ∀ rr ∈ d.routers, headIsP rr = false)
    (ha : ∀ a ∈ d.arcs, a.1 ∈ d.providers ∨ a.1 ∈ d.routers) :
    uBalOutCode d.arcs flv = uBalOutIntended d.providers d.arcs flv := by
  unfold uBalOutCode uBalOutIntended
  have hf : d.arcs.filter (fun a => headIsP a.1) =
      d.arcs.filter (fun a => decide (a.1 ∈ d.providers)) := by
    apply List.filter_congr
    intro a haa
    rcases ha a haa with hin | hin
    · rw [hp a.1 hin]
      symm
      simpa using hin
    · rw [hr a.1 hin]
      symm
      simp only [decide_eq_false_iff_not]
      intro hmem
      have hcontr := hp a.1 hmem
      rw [hr a.1 hin] at hcontr
      cases hcontr
  rw [hf]

/-- Witness for C10: on the instance with provider `P1`, router `R1` and
one arc from each, the code's sum equals the intended sum. -/
theorem c10_witness :
    uBalOutCode pData.arcs (fun a => if a.1 = "P1" then 3 else 5) =
      uBalOutIntended pData.providers pData.arcs (fun a => if a.1 = "P1" then 3 else 5) :=
  c10_provider_prefix pData (fun a => if a.1 = "P1" then 3 else 5)
    (by
      intro p hp
      simp only [pData, wData] at hp
      simp only [List.mem_singleton] at hp
      subst hp
      decide)
    (by
      intro rr hrr
      simp only [pData, wData] at hrr
      simp only [List.mem_singleton] at hrr
      subst hrr
      decide)
    (by
      intro a haa
      simp only [pData, wData, List.mem_cons, List.mem_singleton,
        List.not_mem_nil, or_false] at haa
      rcases haa with rfl | rfl
      · left; simp [pData, wData]
      · right; simp [pData, wData])
